import Mathlib

/-!
Verification of the natural-language specification of the `irrep` package
(band-structure irreducible-representation engine) against a shallow
embedding of the code in `src/irrep/bandstructure.py`, `src/irrep/utility.py`
and `src/irrep/readfiles.py`.

Python floats are embedded as exact rationals (`ℚ`); where NaN and the two
infinities matter (gap reductions) a dedicated type `PyF` with IEEE
comparison semantics is used.  Transcendental quantities (`np.angle`,
complex moduli, Zak phases) are embedded over `ℝ`/`ℂ`.
-/

namespace Irrep

/-- Errors raised by the embedded Python code (exceptions, failed asserts,
numpy coercion errors, unbound locals). -/
inductive PyErr
  | valueError      -- `raise ValueError(...)`
  | assertFail      -- failed `assert`
  | typeMismatch    -- a Fortran record of the wrong kind was read
  | endOfFile       -- read past the end of the record stream
  | indexError      -- sequence index out of range
  | unpackError     -- tuple-unpack of a record of the wrong length
  | broadcastError  -- numpy shape mismatch on assignment/reshape
  | nameError       -- a local variable referenced before assignment
  | raggedArray     -- numpy could not coerce a ragged sequence to an array
  | reduceEmpty     -- functools.reduce over an empty sequence
deriving DecidableEq, Repr

/-- A Python float that may be NaN or ±Inf; finite values are exact
rationals.  The finite values reachable in the embedded code are exactly
representable, so no rounding model is needed. -/
inductive PyF
  | nan
  | pinf
  | ninf
  | fin (q : ℚ)
deriving DecidableEq, Repr

/-- IEEE-754 `<` on Python floats: any comparison with NaN is false. -/
def PyF.lt : PyF → PyF → Bool
  | .nan, _ => false
  | _, .nan => false
  | .pinf, _ => false
  | .ninf, .ninf => false
  | .ninf, _ => true
  | .fin _, .ninf => false
  | .fin _, .pinf => true
  | .fin a, .fin b => decide (a < b)

/-- Python's builtin `min(a, b)`: returns `b` exactly when `b < a`
(so a NaN in second position is ignored). -/
def pymin (a b : PyF) : PyF := if PyF.lt b a then b else a

/-- Python's builtin `max(a, b)`: returns `b` exactly when `a < b`. -/
def pymax (a b : PyF) : PyF := if PyF.lt a b then b else a

/-- IEEE subtraction of a finite float from a Python float. -/
def PyF.subQ : PyF → ℚ → PyF
  | .nan, _ => .nan
  | .pinf, _ => .pinf
  | .ninf, _ => .ninf
  | .fin a, q => .fin (a - q)

/-- IEEE subtraction on Python floats (only the combinations reachable in
the gap reductions are meaningful; `Inf - Inf` is NaN). -/
def PyF.sub : PyF → PyF → PyF
  | .nan, _ => .nan
  | _, .nan => .nan
  | .pinf, .pinf => .nan
  | .pinf, _ => .pinf
  | .ninf, .ninf => .nan
  | .ninf, _ => .ninf
  | .fin _, .pinf => .ninf
  | .fin _, .ninf => .pinf
  | .fin a, .fin b => .fin (a - b)

/-- Python's `x % y` on exact values (sign follows the divisor `y`;
for `y > 0` this is `x - y*⌊x/y⌋`). -/
def pymodQ (x y : ℚ) : ℚ := x - y * ⌊x / y⌋

/-- Python's `int(x)`: truncation toward zero. -/
def pyint (x : ℚ) : ℤ := if 0 ≤ x then ⌊x⌋ else -⌊-x⌋

/-- The per-k-point data consumed by the `BandStructure` aggregate methods:
`KP.num_bandinvs` (None when the little group has no inversion), `KP.upper`
(energy of the first band above the window, NaN when unknown,
cf. `bandstructure.py` lines 320-324) and `KP.Energy` (energies of the
in-window bands, Fermi level subtracted).  The class `Kpoint` itself lives
in `kpoint.py`, outside the analysed sources; only these read-only
attributes are consumed by the methods under verification. -/
structure KpointData where
  num_bandinvs : Option ℕ
  upper : PyF
  Energy : List ℚ
deriving DecidableEq, Repr

/-- The attributes of `BandStructure` touched by the aggregate methods. -/
structure BandStructureM where
  kpoints : List KpointData
  spinor : Bool
  efermi : ℚ
  Ecut0 : ℚ
  Ecut : ℚ
deriving DecidableEq, Repr

/-- `BandStructure.num_bandinvs` (bandstructure.py lines 449-455): total
number of inversion-odd states, summed over k-points, skipping k-points
whose `num_bandinvs` is `None`. -/
def num_bandinvs (kps : List KpointData) : ℕ :=
  kps.foldl (fun acc k => match k.num_bandinvs with
    | some n => acc + n
    | none => acc) 0

/-- The Z2 invariant printed by `BandStructure.write_characters2`
(bandstructure.py line 398): `int(self.num_bandinvs/2 % 2)` with Python
true division and float modulo, both exact at these magnitudes. -/
def z2_code (kps : List KpointData) : ℤ :=
  pyint (pymodQ ((num_bandinvs kps : ℚ) / 2) 2)

/-- The Z4 invariant printed by `BandStructure.write_characters2`
(bandstructure.py line 399): `int(self.num_bandinvs/2 % 4)`. -/
def z4_code (kps : List KpointData) : ℤ :=
  pyint (pymodQ ((num_bandinvs kps : ℚ) / 2) 4)

/-- Modelled from the spec: the per-k-point inversion-odd tally produced by
the missing `kpoint.py` is Kramers-paired in the spinor case ("tallied as
Kramers pairs when time-reversal pairing is active ... since Kramers
partners are always paired"), so each k-point contributes an even count. -/
def KramersPaired (k : KpointData) : Prop :=
  ∀ n, k.num_bandinvs = some n → 2 ∣ n

instance (k : KpointData) : Decidable (KramersPaired k) := by
  unfold KramersPaired
  match k.num_bandinvs with
  | none => exact .isTrue (by intro n hn; cases hn)
  | some m =>
    by_cases h2 : 2 ∣ m
    · exact .isTrue (by intro n hn; cases hn; exact h2)
    · exact .isFalse (by intro hall; exact h2 (hall m rfl))

/-- Effective plane-wave cutoff chosen in `BandStructure.__init__`
(bandstructure.py lines 250-254): `Ecut0` when the user value is unset,
non-positive or larger than `Ecut0`, else the user value. -/
def set_Ecut (Ecut : Option ℚ) (Ecut0 : ℚ) : ℚ :=
  match Ecut with
  | none => Ecut0
  | some e => if e > Ecut0 ∨ e ≤ 0 then Ecut0 else e

/-- The `EF` keyword after `.lower()` and the `float(EF)` attempt: the
literal string `auto`, a float-parsable string, or anything else. -/
inductive EFArg
  | auto
  | num (v : ℚ)
  | invalid
deriving DecidableEq, Repr

/-- Fermi-energy selection in `BandStructure.__init__` (bandstructure.py
lines 224-237).  Result: the chosen `efermi` together with a flag that is
`true` exactly when the "fermi-energy not found" warning is printed;
an `Except.error` models the `RuntimeError` raised for an invalid keyword. -/
def set_efermi (EF : EFArg) (EF_in : Option ℚ) : Except PyErr (ℚ × Bool) :=
  match EF with
  | .auto =>
    match EF_in with
    | none => .ok (0, true)
    | some e => .ok (e, false)
  | .num v => .ok (v, false)
  | .invalid => .error .valueError

/-- `BandStructure.Separate` (bandstructure.py lines 653-747).  The method
returns `{1: self}` immediately when `isymop == 1`; every later statement
(fetching the symmetry, separating each k-point through `Kpoint.Separate`
— a method of the missing `kpoint.py` — and clustering the eigenvalues) is
reached only for `isymop ≠ 1` and is abstracted as the collaborator
function `rest`, so the theorem below holds for every possible behaviour
of that branch. -/
def Separate (rest : BandStructureM → ℕ → ℚ → Bool → List (ℚ × BandStructureM))
    (bs : BandStructureM) (isymop : ℕ) (degen_thresh : ℚ)
    (groupKramers : Bool) : List (ℚ × BandStructureM) :=
  if isymop = 1 then [(1, bs)] else rest bs isymop degen_thresh groupKramers

/-- Concrete k-point data used to instantiate the C1 theorem: counts 4,
(no inversion), 2 — total 6 inversion-odd states, 3 Kramers pairs. -/
def c1kps : List KpointData :=
  [⟨some 4, .nan, []⟩, ⟨none, .nan, []⟩, ⟨some 2, .fin 0, [1]⟩]

/-- `KP.Energy[-1]`: the highest in-window energy of a k-point. -/
def lastE (k : KpointData) : ℚ := k.Energy.getLastD 0

/-- `BandStructure.gap_direct` (bandstructure.py lines 433-438):
`gap = np.Inf` then `gap = min(gap, KP.upper - KP.Energy[-1])` over all
k-points, with Python `min` semantics (NaN in second position ignored). -/
def gap_direct (kps : List KpointData) : PyF :=
  kps.foldl (fun gap k => pymin gap (k.upper.subQ (lastE k))) .pinf

/-- `BandStructure.gap_indirect` (bandstructure.py lines 440-447):
`min_upper` over `KP.upper`, `max_lower` over `KP.Energy[-1]`, returning
`min_upper - max_lower`. -/
def gap_indirect (kps : List KpointData) : PyF :=
  PyF.sub (kps.foldl (fun m k => pymin m k.upper) .pinf)
    (kps.foldl (fun m k => pymax m (.fin (lastE k))) .ninf)

/-- The finite value of a Python float, if any. -/
def PyF.toQ? : PyF → Option ℚ
  | .fin a => some a
  | _ => none

/-- Specification side of C3: the per-k-point direct gaps
`upper - Energy[-1]`, restricted to k-points with a known next band. -/
def knownDiffs (kps : List KpointData) : List ℚ :=
  kps.filterMap (fun k => match k.upper with
    | .fin u => some (u - lastE k)
    | _ => none)

/-- Specification side of C3: the known above-window energies. -/
def knownUppers (kps : List KpointData) : List ℚ :=
  kps.filterMap (fun k => match k.upper with
    | .fin u => some u
    | _ => none)

/-- Specification side of C3: the highest in-window energies. -/
def lowers (kps : List KpointData) : List ℚ := kps.map lastE

/-- Minimum of a rational list, `+Inf` when the list is empty. -/
def minPyF (l : List ℚ) : PyF :=
  match l.min? with
  | some m => .fin m
  | none => .pinf

/-- Maximum of a rational list, `-Inf` when the list is empty. -/
def maxPyF (l : List ℚ) : PyF :=
  match l.max? with
  | some m => .fin m
  | none => .ninf

/-- Concrete k-point data instantiating the C3 theorem: uppers 3, NaN, 5;
window tops 1, 2, 0. -/
def c3kps : List KpointData :=
  [⟨none, .fin 3, [0, 1]⟩, ⟨some 2, .nan, [2]⟩, ⟨none, .fin 5, [0]⟩]

/-- Inner product of two coefficient rows (entrywise product, summed),
used by the embedded numpy `@` operator. -/
def dotL {α : Type} [Semiring α] (r c : List α) : α :=
  (r.zip c).foldl (fun acc p => acc + p.1 * p.2) 0

/-- numpy matrix multiplication `A @ B` on rectangular nested lists. -/
def matmulL {α : Type} [Semiring α] (A B : List (List α)) : List (List α) :=
  A.map (fun r => (List.range (B.headD []).length).map (fun j =>
    dotL r (B.map (fun br => br.getD j 0))))

/-- `log_message` (utility.py lines 255-270): the message is printed iff
`verbosity >= level`. -/
def log_message (verbosity level : ℤ) : Bool := decide (level ≤ verbosity)

/-- `orthogonolize` (utility.py lines 273-296): SVD of `A` (the numpy
primitive `np.linalg.svd` is the collaborator function `svd`, returning
`u, s, vh`), a `ValueError` when some singular value deviates from 1 by
more than `error_threshold`, the `log_message` warning call when some
deviation exceeds `warning_threshold`, and `u @ vh` otherwise.  The
returned flag records whether the warning was printed. -/
def orthogonolize {α : Type} [Semiring α]
    (svd : List (List α) → List (List α) × List ℚ × List (List α))
    (A : List (List α)) (warning_threshold error_threshold : PyF)
    (verbosity : ℤ) : Except PyErr (List (List α) × Bool) :=
  if ((svd A).2.1).any (fun sv => PyF.lt error_threshold (.fin |sv - 1|)) then
    .error .valueError
  else if ((svd A).2.1).any (fun sv => PyF.lt warning_threshold (.fin |sv - 1|)) then
    .ok (matmulL (svd A).1 (svd A).2.2, log_message verbosity 1)
  else
    .ok (matmulL (svd A).1 (svd A).2.2, false)

/-- A concrete stand-in for `np.linalg.svd` used by the C6 witness:
on its inputs there it returns `u = [[1]]`, `s = [2]`, `vh = [[1]]`. -/
def svdW : List (List ℚ) → List (List ℚ) × List ℚ × List (List ℚ) :=
  fun _ => ([[1]], [2], [[1]])

/-- One Fortran record of the Abinit WFK file: `record_abinit` is called
with format `i4` (integer record) or `f8` (float record). -/
inductive ARec
  | ints (v : List ℤ)
  | floats (v : List ℚ)
deriving DecidableEq, Repr

/-- The read-only context of `ParserAbinit.parse_kpoint`: the remaining
record stream of the WFK file and the header arrays `npwarr`, `nband` and
the `spinor` flag stored by `parse_header`. -/
structure AbinitCtx where
  file : List ARec
  npwarr : List ℤ
  nband : List ℤ
  spinor : Bool
deriving DecidableEq, Repr

/-- The mutable parser state: the sequential cursor `kpt_count` (index of
the next k-point block to be read) and the position in the record
stream. -/
structure AbinitSt where
  kpt_count : ℕ
  pos : ℕ
deriving DecidableEq, Repr

/-- `record_abinit(fWFK, "i4")`: reads the next record, which must be an
integer record. -/
def record_i4 (ctx : AbinitCtx) (pos : ℕ) : Except PyErr (List ℤ × ℕ) :=
  match ctx.file.get? pos with
  | some (.ints v) => .ok (v, pos + 1)
  | some (.floats _) => .error .typeMismatch
  | none => .error .endOfFile

/-- `record_abinit(fWFK, "f8")`: reads the next record, which must be a
float record. -/
def record_f8 (ctx : AbinitCtx) (pos : ℕ) : Except PyErr (List ℚ × ℕ) :=
  match ctx.file.get? pos with
  | some (.floats v) => .ok (v, pos + 1)
  | some (.ints _) => .error .typeMismatch
  | none => .error .endOfFile

/-- `Rydberg_eV = 13.605693` (readfiles.py line 89). -/
def Rydberg_eV : ℚ := 13605693 / 1000000

/-- `Hartree_eV = 2 * Rydberg_eV` (readfiles.py line 90). -/
def Hartree_eV : ℚ := 2 * Rydberg_eV

/-- `record[0::2]`: entries at even positions. -/
def evens : List ℚ → List ℚ
  | [] => []
  | [a] => [a]
  | a :: _ :: t => a :: evens t

/-- `record[1::2]`: entries at odd positions. -/
def odds : List ℚ → List ℚ
  | [] => []
  | [_] => []
  | _ :: b :: t => b :: odds t

/-- `.reshape(npw, 3)` of a flat integer record (the length check is made
at the call site). -/
def chunk3 : List ℤ → List (List ℤ)
  | a :: b :: c :: t => [a, b, c] :: chunk3 t
  | [] => []
  | rest => [rest]

/-- The `for iband in range(nband)` loop of the non-skip branch: reads one
float record per band and forms the complex row
`record[0::2] + 1j*record[1::2]` (complex numbers as re/im pairs); numpy
rejects a row whose length differs from `npw*nspinor`. -/
def read_bands (ctx : AbinitCtx) : ℕ → ℕ → ℕ →
    Except PyErr (List (List (ℚ × ℚ)) × ℕ)
  | 0, pos, _ => .ok ([], pos)
  | n + 1, pos, rowlen => do
    let (r, pos1) ← record_f8 ctx pos
    let row := (evens r).zip (odds r)
    if row.length = rowlen then do
      let (rest, pos2) ← read_bands ctx n pos1 rowlen
      .ok (row :: rest, pos2)
    else .error .broadcastError

/-- The local variables of `parse_kpoint` carried across loop iterations:
`CG`, `eigen` and `kg` start unassigned (`none`). -/
structure LoopCarry where
  st : AbinitSt
  CG : Option (List (List (ℚ × ℚ)))
  eigen : Option (List ℚ)
  kg : Option (List (List ℤ))
deriving DecidableEq, Repr

/-- One pass of the `for i in range(self.kpt_count, ik+1)` loop of
`ParserAbinit.parse_kpoint` (readfiles.py lines 319-357): header record
(with the three asserts against the header arrays, all indexed at `ik` as
in the source), G-vector record, energies/occupations record, then either
a single discarded float record (`skip`) or one coefficient record per
band; finally `kpt_count += 1`. -/
def parse_kpoint_body (ctx : AbinitCtx) (ik : ℕ) (c : LoopCarry) :
    Except PyErr LoopCarry := do
  let skip := c.st.kpt_count < ik
  let (r1, pos1) ← record_i4 ctx c.st.pos
  match r1 with
  | [npw, nspinor_loc, nb] =>
    match ctx.npwarr.get? ik, ctx.nband.get? ik with
    | some npwik, some nbik =>
      if npw = npwik then
        if nspinor_loc = (if ctx.spinor then 2 else 1) then
          if nb = nbik then do
            let (kgrec, pos2) ← record_i4 ctx pos1
            if (kgrec.length : ℤ) = 3 * npw then do
              let kg := chunk3 kgrec
              let (erec, pos3) ← record_f8 ctx pos2
              let eigen := if skip then c.eigen else
                some ((erec.take nb.toNat).map (fun e => e * Hartree_eV))
              if skip then do
                let (_, pos4) ← record_f8 ctx pos3
                .ok ⟨⟨c.st.kpt_count + 1, pos4⟩, c.CG, eigen, some kg⟩
              else do
                let (CG, pos4) ← read_bands ctx nb.toNat pos3
                  (npw.toNat * (if ctx.spinor then 2 else 1))
                .ok ⟨⟨c.st.kpt_count + 1, pos4⟩, some CG, eigen, some kg⟩
            else .error .broadcastError
          else .error .assertFail
        else .error .assertFail
      else .error .assertFail
    | _, _ => .error .indexError
  | _ => .error .unpackError

/-- The loop of `parse_kpoint`, iterated the fixed number of times
`ik + 1 - kpt_count` computed when the `range` is built. -/
def parse_kpoint_loop (ctx : AbinitCtx) (ik : ℕ) :
    ℕ → LoopCarry → Except PyErr LoopCarry
  | 0, c => .ok c
  | n + 1, c => do
    let c1 ← parse_kpoint_body ctx ik c
    parse_kpoint_loop ctx ik n c1

/-- `ParserAbinit.parse_kpoint(ik)` (readfiles.py lines 299-359): runs the
loop and returns `CG, eigen, kg`; referencing them when the loop body
never assigned them (requested index below the cursor) is Python's
`UnboundLocalError`. -/
def parse_kpoint (ctx : AbinitCtx) (st : AbinitSt) (ik : ℕ) :
    Except PyErr (List (List (ℚ × ℚ)) × List ℚ × List (List ℤ) × AbinitSt) := do
  let c ← parse_kpoint_loop ctx ik (ik + 1 - st.kpt_count) ⟨st, none, none, none⟩
  match c.CG, c.eigen, c.kg with
  | some CG, some eigen, some kg => .ok (CG, eigen, kg, c.st)
  | _, _, _ => .error .nameError

/-- A well-formed two-k-point WFK record stream: each block holds the
header record `[npw=1, nspinor=1, nband=2]`, one G-vector record, one
energies/occupations record and `nband = 2` per-band coefficient
records. -/
def abfile : List ARec :=
  [.ints [1, 1, 2],
   .ints [5, 0, 0],
   .floats [1, 2, 1, 0],
   .floats [10, 0],
   .floats [20, 0],
   .ints [1, 1, 2],
   .ints [7, 0, 0],
   .floats [3, 4, 1, 0],
   .floats [30, 0],
   .floats [40, 0]]

/-- Parser context for the C7 counterexample: the stream above with
header arrays `npwarr = [1,1]`, `nband = [2,2]`, scalar wavefunctions. -/
def abctx : AbinitCtx := ⟨abfile, [1, 1], [2, 2], false⟩

/-- `keys(x)` in `arg_sort_vectors` (utility.py lines 315-316): the
normalized complex angle `(np.angle(x)/(2π) + 0.0) % 1` (float modulo of a
positive divisor is `Int.fract`) and the absolute value `abs(x)`. -/
noncomputable def keysC (x : ℂ) : List ℝ :=
  [Int.fract (Complex.arg x / (2 * Real.pi)), Complex.abs x]

/-- `serialize(x)` (utility.py lines 317-319): the flattened per-entry
keys of a vector, with the flattened length prepended. -/
noncomputable def serializeC (v : List ℂ) : List ℝ :=
  (((v.map keysC).flatten).length : ℝ) :: (v.map keysC).flatten

/-- `x + [0]*(lenmax - len(x))` (utility.py line 322). -/
def padTo (m : ℕ) (x : List ℝ) : List ℝ :=
  x ++ List.replicate (m - x.length) 0

/-- Lexicographic order on key tuples, as numpy compares them. -/
def lexLe : List ℝ → List ℝ → Prop
  | [], _ => True
  | _ :: _, [] => False
  | a :: as, b :: bs => a < b ∨ (a = b ∧ lexLe as bs)

/-- The key tuple of column `j` under `np.lexsort`: the entries of column
`j` of the key matrix, reversed because numpy uses the LAST row as the
primary key. -/
def colKey (rows : List (List ℝ)) (j : ℕ) : List ℝ :=
  (rows.map (fun r => r.getD j 0)).reverse

open Classical in
/-- Stable insertion into a sorted index list (equal keys keep original
order, matching numpy's stable sort). -/
noncomputable def insertStable (le : ℕ → ℕ → Prop) (a : ℕ) :
    List ℕ → List ℕ
  | [] => [a]
  | b :: t => if le a b then a :: b :: t else b :: insertStable le a t

/-- Stable sort of an index list. -/
noncomputable def sortStable (le : ℕ → ℕ → Prop) : List ℕ → List ℕ
  | [] => []
  | a :: t => insertStable le a (sortStable le t)

/-- `np.lexsort` applied to a rectangular 2-D array given as a list of
rows: it sorts the COLUMN indices `0..ncols-1`, using the rows as keys
with the last row as primary key, via a stable ascending sort. -/
noncomputable def np_lexsort (rows : List (List ℝ)) : List ℕ :=
  sortStable (fun j1 j2 => lexLe (colKey rows j1) (colKey rows j2))
    (List.range (rows.headD []).length)

/-- `arg_sort_vectors` (utility.py lines 303-324): serializes every
vector, pads the key lists to the maximal length and calls
`np.lexsort(np.array(sort_key))` — passing the matrix whose ROWS are the
per-vector keys, so numpy sorts the columns of the key matrix. -/
noncomputable def arg_sort_vectors (l : List (List ℂ)) : List ℕ :=
  np_lexsort ((l.map serializeC).map
    (padTo (((l.map serializeC).map List.length).foldl max 0)))

/-- `sort_vectors` (utility.py lines 298-301): indexes the vector list by
the result of `arg_sort_vectors` (out-of-range indices, which can occur
because `np.lexsort` returns one index per key COLUMN, would raise in
Python; they are defaulted here and do not occur in the inputs used). -/
noncomputable def sort_vectors (l : List (List ℂ)) : List (List ℂ) :=
  (arg_sort_vectors l).map (fun i => l.getD i [])

/-- An overlap matrix `Kpoint.overlap(other)` (a method of the missing
`kpoint.py`): a complex matrix with a declared numpy shape.  The
`BandStructure` loop methods consume these matrices as data. -/
structure OvMat where
  rows : ℕ
  cols : ℕ
  entry : ℕ → ℕ → ℂ

/-- The leading `n×n` block `O[:n, :n]`. -/
def lead (n : ℕ) (O : OvMat) : Matrix (Fin n) (Fin n) ℂ :=
  Matrix.of (fun i j => O.entry i j)

/-- `nmax = np.min([o.shape for o in overlaps])` (bandstructure.py line
778): the smallest dimension occurring among the overlap shapes. -/
def nmaxOv (overlaps : List OvMat) : ℕ :=
  ((overlaps.map (fun O => min O.rows O.cols)).min?).getD 0

/-- Python float `%` on reals (positive divisor). -/
noncomputable def pymodR (x y : ℝ) : ℝ := x - y * ⌊x / y⌋

/-- The Zak phase accumulated for the subspace of the first `n` bands
(bandstructure.py lines 781-783): per overlap the angle of the determinant
of its leading `n×n` block, summed over the loop, taken `% (2*np.pi)`. -/
noncomputable def zakZ (overlaps : List OvMat) (n : ℕ) : ℝ :=
  pymodR ((overlaps.map (fun O => Complex.arg (lead n O).det)).sum)
    (2 * Real.pi)

/-- The array `z` returned by `BandStructure.zakphase`: one entry per
subspace size `n = 1 .. nmax`. -/
noncomputable def zakphase_z (overlaps : List OvMat) : List ℝ :=
  (List.range (nmaxOv overlaps)).map (fun i => zakZ overlaps (i + 1))

/-- The 1×1 overlap matrix `[[1]]`, instantiating the C5 witness. -/
def o11 : OvMat := ⟨1, 1, fun _ _ => 1⟩

/-- `np.angle` applied to the PAIR returned by `np.linalg.eig` (the
eigenvalue vector of shape `(n,)` and the eigenvector matrix of shape
`(n, n)`): numpy first coerces the pair to an array, which fails for every
`n ≥ 1` because the two components have different shapes (a ragged
sequence); only the degenerate `0×0` case coerces, to an empty array whose
angles are the empty list. -/
def angle_eig_pair (w : List ℂ) (v : List (List ℂ)) :
    Except PyErr (List ℝ) :=
  match w, v with
  | [], [] => .ok []
  | _, _ => .error .raggedArray

open Classical in
/-- Ascending insertion for `np.sort`. -/
noncomputable def insertR (a : ℝ) : List ℝ → List ℝ
  | [] => [a]
  | b :: t => if a ≤ b then a :: b :: t else b :: insertR a t

/-- `np.sort` on a real vector. -/
noncomputable def sortR : List ℝ → List ℝ
  | [] => []
  | a :: t => insertR a (sortR t)

/-- The tail of `BandStructure.wcc` after the Wilson matrix is formed
(bandstructure.py line 820):
`np.sort((np.angle(np.linalg.eig(wilson)) / (2*np.pi)) % 1)` — `np.angle`
receives the whole `(eigenvalues, eigenvectors)` pair. -/
noncomputable def wcc_finish (eig : List (List ℂ) → List ℂ × List (List ℂ))
    (wilson : List (List ℂ)) : Except PyErr (List ℝ) :=
  match angle_eig_pair (eig wilson).1 (eig wilson).2 with
  | .error e => .error e
  | .ok angles =>
    .ok (sortR (angles.map (fun a => Int.fract (a / (2 * Real.pi)))))

/-- `BandStructure.wcc` (bandstructure.py lines 801-820): per overlap the
unitary factor `U·Vh` from the SVD tuple slice `[0:3:2]` (the numpy
primitives `np.linalg.svd` and `np.linalg.eig` are the collaborator
functions `svd` and `eig`), the ordered product over the loop
(`functools.reduce`, error on an empty loop), then the eigenvalue-phase
extraction of `wcc_finish`. -/
noncomputable def wcc
    (svd : List (List ℂ) → List (List ℂ) × List ℝ × List (List ℂ))
    (eig : List (List ℂ) → List ℂ × List (List ℂ))
    (overlaps : List (List (List ℂ))) : Except PyErr (List ℝ) :=
  match overlaps.map (fun O => matmulL (svd O).1 (svd O).2.2) with
  | [] => .error .reduceEmpty
  | u :: us => wcc_finish eig (us.foldl matmulL u)

/-- A concrete stand-in for `np.linalg.svd` on the 1×1 matrix `[[1]]`:
`u = [[1]]`, `s = [1]`, `vh = [[1]]`. -/
noncomputable def svdOne :
    List (List ℂ) → List (List ℂ) × List ℝ × List (List ℂ) :=
  fun _ => ([[1]], [1], [[1]])

/-- A concrete stand-in for `np.linalg.eig` on the 1×1 matrix `[[1]]`:
eigenvalues `[1]`, eigenvectors `[[1]]`. -/
noncomputable def eigOne : List (List ℂ) → List ℂ × List (List ℂ) :=
  fun _ => ([1], [[1]])

/-- Concrete band structure and non-trivial-branch behaviour used by the
C10 witness. -/
def c10bs : BandStructureM := ⟨c1kps, true, 0, 50, 30⟩

/-- A nontrivial stand-in for the `isymop ≠ 1` branch: it empties the
k-point list, so the witness also shows that branch is NOT taken. -/
def c10rest : BandStructureM → ℕ → ℚ → Bool → List (ℚ × BandStructureM) :=
  fun bs _ _ _ => [(0, { bs with kpoints := [] })]

-- ===== THEOREMS =====


theorem pymin_fin_fin (a b : ℚ) : pymin (.fin a) (.fin b) = .fin (min a b) := by
  unfold pymin PyF.lt
  rcases lt_trichotomy b a with h | h | h
  · rw [if_pos (by simpa using h), min_eq_right h.le]
  · rw [h, if_neg (by simp), min_self]
  · rw [if_neg (by simpa using not_lt.2 h.le), min_eq_left h.le]

theorem pymax_fin_fin (a b : ℚ) : pymax (.fin a) (.fin b) = .fin (max a b) := by
  unfold pymax PyF.lt
  rcases lt_trichotomy a b with h | h | h
  · rw [if_pos (by simpa using h), max_eq_right h.le]
  · rw [h, if_neg (by simp), max_self]
  · rw [if_neg (by simpa using not_lt.2 h.le), max_eq_left h.le]

theorem foldl_pymin_fin (l : List PyF) (hl : ∀ x ∈ l, x ≠ .ninf) (q : ℚ) :
    l.foldl pymin (.fin q) = .fin ((l.filterMap PyF.toQ?).foldl min q) := by
  induction l generalizing q with
  | nil => rfl
  | cons x t ih =>
    have hx := hl x (List.mem_cons_self x t)
    have ht : ∀ y ∈ t, y ≠ PyF.ninf := fun y hy => hl y (List.mem_cons_of_mem x hy)
    match x, hx with
    | .nan, _ =>
      simp only [List.foldl_cons, List.filterMap_cons]
      show List.foldl pymin (pymin (.fin q) .nan) t = _
      rw [show pymin (.fin q) .nan = .fin q from rfl]
      exact ih ht q
    | .pinf, _ =>
      simp only [List.foldl_cons, List.filterMap_cons]
      show List.foldl pymin (pymin (.fin q) .pinf) t = _
      rw [show pymin (.fin q) .pinf = .fin q from rfl]
      exact ih ht q
    | .fin b, _ =>
      simp only [List.foldl_cons, List.filterMap_cons]
      show List.foldl pymin (pymin (.fin q) (.fin b)) t = _
      rw [pymin_fin_fin]
      exact ih ht (min q b)

theorem foldl_pymin_pinf (l : List PyF) (hl : ∀ x ∈ l, x ≠ .ninf) :
    l.foldl pymin .pinf = minPyF (l.filterMap PyF.toQ?) := by
  induction l with
  | nil => rfl
  | cons x t ih =>
    have hx := hl x (List.mem_cons_self x t)
    have ht : ∀ y ∈ t, y ≠ PyF.ninf := fun y hy => hl y (List.mem_cons_of_mem x hy)
    match x, hx with
    | .nan, _ =>
      simp only [List.foldl_cons, List.filterMap_cons]
      show List.foldl pymin (pymin .pinf .nan) t = _
      rw [show pymin .pinf .nan = .pinf from rfl]
      exact ih ht
    | .pinf, _ =>
      simp only [List.foldl_cons, List.filterMap_cons]
      show List.foldl pymin (pymin .pinf .pinf) t = _
      rw [show pymin .pinf .pinf = .pinf from rfl]
      exact ih ht
    | .fin b, _ =>
      simp only [List.foldl_cons, List.filterMap_cons]
      show List.foldl pymin (pymin .pinf (.fin b)) t = _
      rw [show pymin .pinf (.fin b) = .fin b from rfl,
        foldl_pymin_fin t ht b]
      rfl

theorem foldl_pymax_fin (l : List ℚ) (q : ℚ) :
    (l.map PyF.fin).foldl pymax (.fin q) = .fin (l.foldl max q) := by
  induction l generalizing q with
  | nil => rfl
  | cons b t ih =>
    simp only [List.map_cons, List.foldl_cons]
    rw [pymax_fin_fin]
    exact ih (max q b)

theorem foldl_pymax_ninf (l : List ℚ) :
    (l.map PyF.fin).foldl pymax .ninf = maxPyF l := by
  match l with
  | [] => rfl
  | b :: t =>
    simp only [List.map_cons, List.foldl_cons]
    rw [show pymax .ninf (.fin b) = .fin b from rfl, foldl_pymax_fin t b]
    rfl

/-- Claim C3: `gap_direct` is the minimum over k-points of
`upper - Energy[-1]` and `gap_indirect` is `min(upper) - max(Energy[-1])`,
where k-points with an unknown next band (`upper = NaN`) are excluded from
both minima (an empty minimum propagates as `+Inf`).  The hypothesis
records that `__init__` only ever stores a finite value or NaN in
`KP.upper`. -/
theorem C3_gaps (kps : List KpointData)
    (hup : ∀ k ∈ kps, k.upper ≠ .pinf ∧ k.upper ≠ .ninf) :
    gap_direct kps = minPyF (knownDiffs kps) ∧
    gap_indirect kps =
      PyF.sub (minPyF (knownUppers kps)) (maxPyF (lowers kps)) := by
  have hsub : ∀ x ∈ kps.map (fun k => k.upper.subQ (lastE k)), x ≠ PyF.ninf := by
    intro x hx
    obtain ⟨k, hk, hkx⟩ := List.mem_map.1 hx
    rw [← hkx]
    have h1 := (hup k hk).1
    have h2 := (hup k hk).2
    cases hu : k.upper with
    | nan => exact fun h => by cases h
    | pinf => exact absurd hu h1
    | ninf => exact absurd hu h2
    | fin u => exact fun h => by cases h
  have hupn : ∀ x ∈ kps.map (fun k => k.upper), x ≠ PyF.ninf := by
    intro x hx
    obtain ⟨k, hk, hkx⟩ := List.mem_map.1 hx
    rw [← hkx]
    exact (hup k hk).2
  constructor
  · have h1 : gap_direct kps =
        (kps.map (fun k => k.upper.subQ (lastE k))).foldl pymin .pinf := by
      unfold gap_direct
      exact (List.foldl_map (fun k => k.upper.subQ (lastE k)) pymin kps .pinf).symm
    rw [h1, foldl_pymin_pinf _ hsub, List.filterMap_map]
    congr 1
    unfold knownDiffs
    apply List.filterMap_congr
    intro k _
    show PyF.toQ? (k.upper.subQ (lastE k)) = _
    cases k.upper <;> rfl
  · have h1 : kps.foldl (fun m k => pymin m k.upper) .pinf =
        (kps.map (fun k => k.upper)).foldl pymin .pinf :=
      (List.foldl_map (fun k => k.upper) pymin kps .pinf).symm
    have h2 : kps.foldl (fun m k => pymax m (.fin (lastE k))) .ninf =
        ((kps.map lastE).map PyF.fin).foldl pymax .ninf := by
      simp only [List.foldl_map]
    unfold gap_indirect
    rw [h1, h2, foldl_pymax_ninf, foldl_pymin_pinf _ hupn, List.filterMap_map]
    congr 2

/-- Witness for C3 at a concrete band structure: uppers 3, NaN, 5 and
window tops 1, 2, 0 give a direct gap of 2 and an indirect gap of 1,
with the NaN k-point excluded. -/
theorem C3_gaps_witness :
    (gap_direct c3kps = minPyF (knownDiffs c3kps) ∧
      gap_indirect c3kps =
        PyF.sub (minPyF (knownUppers c3kps)) (maxPyF (lowers c3kps))) ∧
    gap_direct c3kps = .fin 2 ∧ gap_indirect c3kps = .fin 1 :=
  ⟨C3_gaps c3kps (by decide),
   by norm_num [gap_direct, c3kps, pymin, PyF.subQ, PyF.lt, lastE,
     List.getLastD_cons, List.foldl_cons, List.foldl_nil],
   by norm_num [gap_indirect, c3kps, pymin, pymax, PyF.sub, PyF.lt, lastE,
     List.getLastD_cons, List.foldl_cons, List.foldl_nil]⟩

theorem num_bandinvs_foldl_even (kps : List KpointData)
    (h : ∀ k ∈ kps, KramersPaired k) :
    ∀ acc : ℕ, 2 ∣ acc →
      2 ∣ kps.foldl (fun acc k => match k.num_bandinvs with
        | some n => acc + n
        | none => acc) acc := by
  induction kps with
  | nil => intro acc hacc; exact hacc
  | cons k t ih =>
    intro acc hacc
    simp only [List.foldl_cons]
    refine ih (fun x hx => h x (List.mem_cons_of_mem k hx)) _ ?_
    match hk : k.num_bandinvs with
    | none => exact hacc
    | some n =>
      exact Nat.dvd_add hacc (h k (List.mem_cons_self k t) n hk)

theorem pymodQ_intCast (m : ℤ) (d : ℕ) :
    pymodQ (m : ℚ) d = ((m % (d : ℤ) : ℤ) : ℚ) := by
  unfold pymodQ
  have hfl : ⌊(m : ℚ) / (d : ℚ)⌋ = m / (d : ℤ) := by
    exact_mod_cast Rat.floor_intCast_div_natCast m d
  rw [hfl]
  push_cast [Int.emod_def]
  ring

theorem pyint_intCast (k : ℤ) (hk : 0 ≤ k) : pyint ((k : ℤ) : ℚ) = k := by
  unfold pyint
  rw [if_pos (by exact_mod_cast hk)]
  exact Int.floor_intCast k

/-- Claim C1: the Z2 invariant reported by `BandStructure.write_characters2`
equals `(N/2) mod 2` and the Z4 invariant equals `(N/2) mod 4`, where `N`
is the total number of inversion-odd states summed over all k-points; with
Kramers-paired per-k-point counts (spinor case) `N/2` is an exact integer —
the float expression `int(num_bandinvs/2 % d)` introduces no error — so
`Z2 ∈ {0,1}` and `Z4 ∈ {0,1,2,3}`. -/
theorem C1_z2_z4_exact (kps : List KpointData)
    (h : ∀ k ∈ kps, KramersPaired k) :
    2 ∣ num_bandinvs kps ∧
    ((num_bandinvs kps : ℚ) / 2 = ((num_bandinvs kps / 2 : ℕ) : ℚ)) ∧
    z2_code kps = ((num_bandinvs kps / 2) % 2 : ℕ) ∧
    z4_code kps = ((num_bandinvs kps / 2) % 4 : ℕ) ∧
    (z2_code kps = 0 ∨ z2_code kps = 1) ∧
    (z4_code kps = 0 ∨ z4_code kps = 1 ∨ z4_code kps = 2 ∨ z4_code kps = 3) := by
  have heven : 2 ∣ num_bandinvs kps :=
    num_bandinvs_foldl_even kps h 0 ⟨0, rfl⟩
  obtain ⟨m, hm⟩ := heven
  have hhalf : num_bandinvs kps / 2 = m := by omega
  have hcastdiv : ((num_bandinvs kps : ℚ) / 2) = (m : ℚ) := by
    rw [hm]; push_cast; ring
  have hz2 : z2_code kps = ((m % 2 : ℕ) : ℤ) := by
    unfold z2_code
    rw [hcastdiv]
    have hc : ((m : ℕ) : ℚ) = (((m : ℤ)) : ℚ) := by push_cast; rfl
    rw [hc, show (2 : ℚ) = ((2 : ℕ) : ℚ) from by norm_num, pymodQ_intCast m 2]
    rw [pyint_intCast _ (Int.emod_nonneg _ (by norm_num))]
    push_cast
    rfl
  have hz4 : z4_code kps = ((m % 4 : ℕ) : ℤ) := by
    unfold z4_code
    rw [hcastdiv]
    have hc : ((m : ℕ) : ℚ) = (((m : ℤ)) : ℚ) := by push_cast; rfl
    rw [hc, show (4 : ℚ) = ((4 : ℕ) : ℚ) from by norm_num, pymodQ_intCast m 4]
    rw [pyint_intCast _ (Int.emod_nonneg _ (by norm_num))]
    push_cast
    rfl
  refine ⟨⟨m, hm⟩, ?_, ?_, ?_, ?_, ?_⟩
  · rw [hcastdiv, hhalf]
  · rw [hz2, hhalf]
  · rw [hz4, hhalf]
  · rw [hz2]
    have := Nat.mod_lt m (y := 2) (by norm_num)
    omega
  · rw [hz4]
    have := Nat.mod_lt m (y := 4) (by norm_num)
    omega

/-- Witness for C1 at a concrete band structure: counts 4, none, 2 give
`N = 6`, `Z2 = 1`, `Z4 = 3`. -/
theorem C1_z2_z4_exact_witness :
    2 ∣ num_bandinvs c1kps ∧
    ((num_bandinvs c1kps : ℚ) / 2 = ((num_bandinvs c1kps / 2 : ℕ) : ℚ)) ∧
    z2_code c1kps = ((num_bandinvs c1kps / 2) % 2 : ℕ) ∧
    z4_code c1kps = ((num_bandinvs c1kps / 2) % 4 : ℕ) ∧
    (z2_code c1kps = 0 ∨ z2_code c1kps = 1) ∧
    (z4_code c1kps = 0 ∨ z4_code c1kps = 1 ∨ z4_code c1kps = 2 ∨
      z4_code c1kps = 3) :=
  C1_z2_z4_exact c1kps (by decide)

/-- Claim C8: when the Fermi energy is requested as `auto` but the DFT
files provide none, `BandStructure.__init__` sets `efermi = 0.0`, prints
the warning (flag `true`) and continues (`Except.ok`, no exception). -/
theorem C8_efermi_auto_missing :
    set_efermi EFArg.auto none = .ok (0, true) := rfl

/-- Claim C9: the effective cutoff is `Ecut0` whenever the user cutoff is
unset, non-positive or exceeds `Ecut0`, and the user value otherwise; for
a positive file cutoff the result always satisfies
`0 < Ecut ≤ Ecut0`. -/
theorem C9_set_Ecut_cases (Ecut : Option ℚ) (Ecut0 : ℚ) :
    (Ecut = none → set_Ecut Ecut Ecut0 = Ecut0) ∧
    (∀ e, Ecut = some e → (e ≤ 0 ∨ Ecut0 < e) → set_Ecut Ecut Ecut0 = Ecut0) ∧
    (∀ e, Ecut = some e → 0 < e → e ≤ Ecut0 → set_Ecut Ecut Ecut0 = e) ∧
    (0 < Ecut0 → 0 < set_Ecut Ecut Ecut0 ∧ set_Ecut Ecut Ecut0 ≤ Ecut0) := by
  refine ⟨?_, ?_, ?_, ?_⟩
  · intro hnone; rw [hnone]; rfl
  · intro e he hcond
    rw [he]
    show (if e > Ecut0 ∨ e ≤ 0 then Ecut0 else e) = Ecut0
    rw [if_pos]
    rcases hcond with h1 | h2
    · exact Or.inr h1
    · exact Or.inl h2
  · intro e he hpos hle
    rw [he]
    show (if e > Ecut0 ∨ e ≤ 0 then Ecut0 else e) = e
    rw [if_neg]
    push_neg
    exact ⟨hle, hpos⟩
  · intro h0
    match Ecut with
    | none => exact ⟨h0, le_refl _⟩
    | some e =>
      show 0 < (if e > Ecut0 ∨ e ≤ 0 then Ecut0 else e) ∧
        (if e > Ecut0 ∨ e ≤ 0 then Ecut0 else e) ≤ Ecut0
      by_cases hc : e > Ecut0 ∨ e ≤ 0
      · rw [if_pos hc]; exact ⟨h0, le_refl _⟩
      · rw [if_neg hc]
        push_neg at hc
        exact ⟨hc.2, hc.1⟩

/-- Witness for C9 at concrete cutoffs: user 3 with file cutoff 5 keeps 3;
unset, 7 (too large) and 0 (non-positive) all fall back to 5. -/
theorem C9_set_Ecut_cases_witness :
    set_Ecut (some 3) 5 = 3 ∧ set_Ecut none 5 = 5 ∧
    set_Ecut (some 7) 5 = 5 ∧ set_Ecut (some 0) 5 = 5 ∧
    0 < set_Ecut (some 3) 5 ∧ set_Ecut (some 3) 5 ≤ 5 :=
  ⟨(C9_set_Ecut_cases (some 3) 5).2.2.1 3 rfl (by norm_num) (by norm_num),
   (C9_set_Ecut_cases none 5).1 rfl,
   (C9_set_Ecut_cases (some 7) 5).2.1 7 rfl (Or.inr (by norm_num)),
   (C9_set_Ecut_cases (some 0) 5).2.1 0 rfl (Or.inl (by norm_num)),
   ((C9_set_Ecut_cases (some 3) 5).2.2.2 (by norm_num)).1,
   ((C9_set_Ecut_cases (some 3) 5).2.2.2 (by norm_num)).2⟩

/-- Claim C10: `BandStructure.Separate` called with symmetry index 1 (the
identity) returns the dictionary `{1: self}` holding the very same
band-structure object, for every degeneracy threshold, Kramers flag and
every possible behaviour of the non-trivial branch — no separation is
performed. -/
theorem C10_Separate_identity
    (rest : BandStructureM → ℕ → ℚ → Bool → List (ℚ × BandStructureM))
    (bs : BandStructureM) (degen_thresh : ℚ) (groupKramers : Bool) :
    Separate rest bs 1 degen_thresh groupKramers = [(1, bs)] ∧
    ∀ p ∈ Separate rest bs 1 degen_thresh groupKramers, p.2 = bs := by
  have h1 : Separate rest bs 1 degen_thresh groupKramers = [(1, bs)] := rfl
  refine ⟨h1, ?_⟩
  intro p hp
  rw [h1] at hp
  simp only [List.mem_singleton] at hp
  rw [hp]

/-- Witness for C10 at a concrete band structure and a non-trivial
separating branch that would discard every k-point: with `isymop = 1` the
branch is ignored and the very same object comes back. -/
theorem C10_Separate_identity_witness :
    Separate c10rest c10bs 1 (1/100000) true = [(1, c10bs)] ∧
    ∀ p ∈ Separate c10rest c10bs 1 (1/100000) true, p.2 = c10bs :=
  C10_Separate_identity c10rest c10bs (1/100000) true

/-- Claim C6: `orthogonolize(A)` raises when some singular value of `A`
deviates from 1 by more than `error_threshold`; warns and still returns
`U·Vh` when the deviation exceeds `warning_threshold` but no deviation
exceeds `error_threshold`; otherwise returns `U·Vh` silently — and a
violation beyond `warning_threshold` is always reported (error or
printed warning), never silently accepted.  `1 ≤ verbosity` is the
default verbosity of the call. -/
theorem C6_orthogonolize {α : Type} [Semiring α]
    (svd : List (List α) → List (List α) × List ℚ × List (List α))
    (A : List (List α)) (wt et : PyF) (verbosity : ℤ)
    (hv : 1 ≤ verbosity) :
    ((∃ sv ∈ (svd A).2.1, PyF.lt et (.fin |sv - 1|) = true) →
      orthogonolize svd A wt et verbosity = .error .valueError) ∧
    ((∀ sv ∈ (svd A).2.1, PyF.lt et (.fin |sv - 1|) = false) →
      (∃ sv ∈ (svd A).2.1, PyF.lt wt (.fin |sv - 1|) = true) →
      orthogonolize svd A wt et verbosity =
        .ok (matmulL (svd A).1 (svd A).2.2, true)) ∧
    ((∀ sv ∈ (svd A).2.1, PyF.lt wt (.fin |sv - 1|) = false ∧
        PyF.lt et (.fin |sv - 1|) = false) →
      orthogonolize svd A wt et verbosity =
        .ok (matmulL (svd A).1 (svd A).2.2, false)) ∧
    ((∃ sv ∈ (svd A).2.1, PyF.lt wt (.fin |sv - 1|) = true) →
      orthogonolize svd A wt et verbosity = .error .valueError ∨
      orthogonolize svd A wt et verbosity =
        .ok (matmulL (svd A).1 (svd A).2.2, true)) := by
  have hlog : log_message verbosity 1 = true := decide_eq_true hv
  have herr : ∀ (h : ((svd A).2.1).any
      (fun sv => PyF.lt et (.fin |sv - 1|)) = true),
      orthogonolize svd A wt et verbosity = .error .valueError := by
    intro h
    unfold orthogonolize
    rw [if_pos h]
  have hwarn : ∀ (h1 : ((svd A).2.1).any
      (fun sv => PyF.lt et (.fin |sv - 1|)) = false)
      (h2 : ((svd A).2.1).any
        (fun sv => PyF.lt wt (.fin |sv - 1|)) = true),
      orthogonolize svd A wt et verbosity =
        .ok (matmulL (svd A).1 (svd A).2.2, true) := by
    intro h1 h2
    unfold orthogonolize
    rw [if_neg (by rw [h1]; exact Bool.false_ne_true), if_pos h2, hlog]
  have hok : ∀ (h1 : ((svd A).2.1).any
      (fun sv => PyF.lt et (.fin |sv - 1|)) = false)
      (h2 : ((svd A).2.1).any
        (fun sv => PyF.lt wt (.fin |sv - 1|)) = false),
      orthogonolize svd A wt et verbosity =
        .ok (matmulL (svd A).1 (svd A).2.2, false) := by
    intro h1 h2
    unfold orthogonolize
    rw [if_neg (by rw [h1]; exact Bool.false_ne_true),
      if_neg (by rw [h2]; exact Bool.false_ne_true)]
  refine ⟨?_, ?_, ?_, ?_⟩
  · intro hex
    exact herr (List.any_eq_true.2 hex)
  · intro hall hex
    refine hwarn ?_ (List.any_eq_true.2 hex)
    rw [List.any_eq_false]
    intro sv hsv
    rw [hall sv hsv]
    exact Bool.false_ne_true
  · intro hall
    refine hok ?_ ?_ <;> rw [List.any_eq_false] <;> intro sv hsv
    · rw [(hall sv hsv).2]; exact Bool.false_ne_true
    · rw [(hall sv hsv).1]; exact Bool.false_ne_true
  · intro hex
    by_cases hany : ((svd A).2.1).any
        (fun sv => PyF.lt et (.fin |sv - 1|)) = true
    · exact Or.inl (herr hany)
    · refine Or.inr (hwarn ?_ (List.any_eq_true.2 hex))
      exact Bool.not_eq_true _ ▸ (Bool.eq_false_iff.2 hany)

/-- Witness for C6: with singular value 2, an error threshold of 1/2
triggers the `ValueError`; error threshold `+Inf` with warning threshold
1/4 yields the printed warning and still returns `U·Vh`; both thresholds
`+Inf` (the defaults) return `U·Vh` silently. -/
theorem C6_orthogonolize_witness :
    orthogonolize svdW [[0]] (.fin (1/4)) (.fin (1/2)) 1 =
      .error .valueError ∧
    orthogonolize svdW [[0]] (.fin (1/4)) .pinf 1 =
      .ok (matmulL (svdW [[0]]).1 (svdW [[0]]).2.2, true) ∧
    orthogonolize svdW [[0]] .pinf .pinf 1 =
      .ok (matmulL (svdW [[0]]).1 (svdW [[0]]).2.2, false) :=
  ⟨(C6_orthogonolize svdW [[0]] (.fin (1/4)) (.fin (1/2)) 1 (by norm_num)).1
      ⟨2, by norm_num [svdW], by norm_num [PyF.lt, svdW]⟩,
   (C6_orthogonolize svdW [[0]] (.fin (1/4)) .pinf 1 (by norm_num)).2.1
      (by intro sv hsv; rfl)
      ⟨2, by norm_num [svdW], by norm_num [PyF.lt, svdW]⟩,
   (C6_orthogonolize svdW [[0]] .pinf .pinf 1 (by norm_num)).2.2.1
      (by intro sv hsv; exact ⟨rfl, rfl⟩)⟩

/-- Claim C7 counterexample: on the well-formed stream `abfile` (two
blocks of 5 records each, `nband = 2`), requesting k-point 1 from cursor 0
must — per the claim — count past all of block 0 and return block 1's
data with the cursor at 2.  Instead the skip branch discards only one of
the two per-band coefficient records of block 0, so the next header read
lands on block 0's second coefficient record (a float record read as
`i4`): the embedded code fails instead of returning k-point 1's data. -/
theorem C7_parse_kpoint_skip_desync :
    parse_kpoint abctx ⟨0, 0⟩ 1 = .error .typeMismatch := rfl

/-- Claim C2 counterexample: sorting the one-element vectors of
`[1+0j, -1+0j, 0+1j]` with the comparator as implemented yields the order
`[-1+0j, 0+1j, 1+0j]`, NOT the claimed `[1+0j, 0+1j, -1+0j]`: the
`np.lexsort(np.array(sort_key))` call hands numpy the key matrix with one
ROW per vector, so numpy sorts the key columns (primary key = the last
vector's serialized keys) instead of sorting the vectors by their own
keys. -/
theorem C2_sort_vectors_order :
    arg_sort_vectors [[1], [-1], [Complex.I]] = [1, 2, 0] ∧
    sort_vectors [[1], [-1], [Complex.I]] = [[-1], [Complex.I], [1]] ∧
    sort_vectors [[1], [-1], [Complex.I]] ≠ [[1], [Complex.I], [-1]] := by
  have hpi2 : Real.pi / (2 * Real.pi) = 1 / 2 := by
    rw [div_eq_iff (by positivity : (2 : ℝ) * Real.pi ≠ 0)]
    ring
  have hpi4 : Real.pi / 2 / (2 * Real.pi) = 1 / 4 := by
    rw [div_div, div_eq_iff (by positivity : (2 : ℝ) * (2 * Real.pi) ≠ 0)]
    ring
  have habsneg : Complex.abs (-1) = 1 := by
    rw [show ((-1 : ℂ)) = ((-1 : ℝ) : ℂ) from by norm_num, Complex.abs_ofReal]
    norm_num
  have hf2 : Int.fract ((1 : ℝ) / 2) = 1 / 2 :=
    Int.fract_eq_self.2 ⟨by norm_num, by norm_num⟩
  have hf4 : Int.fract ((1 : ℝ) / 4) = 1 / 4 :=
    Int.fract_eq_self.2 ⟨by norm_num, by norm_num⟩
  have h1 : serializeC [(1 : ℂ)] = [2, 0, 1] := by
    simp [serializeC, keysC, Complex.arg_one]
  have h2 : serializeC [(-1 : ℂ)] = [2, 1 / 2, 1] := by
    simp [serializeC, keysC, Complex.arg_neg_one, hpi2, habsneg, hf2]
    norm_num
  have h3 : serializeC [Complex.I] = [2, 1 / 4, 1] := by
    simp [serializeC, keysC, Complex.arg_I, hpi4, hf4]
    norm_num
  have hsort : arg_sort_vectors [[1], [-1], [Complex.I]] = [1, 2, 0] := by
    unfold arg_sort_vectors
    rw [show List.map serializeC [[(1 : ℂ)], [-1], [Complex.I]] =
      [[2, 0, 1], [2, 1 / 2, 1], [2, 1 / 4, 1]] from by
        rw [List.map_cons, List.map_cons, List.map_cons, List.map_nil,
          h1, h2, h3]]
    norm_num [padTo, np_lexsort, sortStable, insertStable, colKey, lexLe,
      List.getD, List.range_succ]
  have hsv : sort_vectors [[1], [-1], [Complex.I]] =
      [[-1], [Complex.I], [1]] := by
    unfold sort_vectors
    rw [hsort]
    rfl
  refine ⟨hsort, hsv, ?_⟩
  rw [hsv]
  intro h
  injection h with ha _
  injection ha with hx _
  exact (by norm_num : ((-1 : ℂ)) ≠ 1) hx

theorem pymodR_coe_angle (s : ℝ) :
    ((pymodR s (2 * Real.pi) : ℝ) : Real.Angle) = (s : Real.Angle) := by
  unfold pymodR
  rw [Real.Angle.coe_sub]
  have hz : (((2 * Real.pi) * (⌊s / (2 * Real.pi)⌋ : ℝ) : ℝ) : Real.Angle)
      = 0 := by
    rw [mul_comm, Real.Angle.intCast_mul_eq_zsmul, Real.Angle.coe_two_pi,
      zsmul_zero]
  rw [hz, sub_zero]

theorem pymodR_bounds (s y : ℝ) (hy : 0 < y) :
    0 ≤ pymodR s y ∧ pymodR s y < y := by
  unfold pymodR
  have hyy : y * (s / y) = s := by
    rw [mul_comm, div_mul_cancel₀ _ hy.ne.symm]
  constructor
  · have h := mul_le_mul_of_nonneg_left (Int.floor_le (s / y)) hy.le
    rw [hyy] at h
    linarith
  · have h := mul_lt_mul_of_pos_left (Int.lt_floor_add_one (s / y)) hy
    rw [hyy] at h
    rw [mul_add, mul_one] at h
    linarith

theorem arg_list_sum_coe_angle (l : List ℂ) (hl : ∀ z ∈ l, z ≠ 0) :
    (((l.map Complex.arg).sum : ℝ) : Real.Angle) =
      (Complex.arg l.prod : Real.Angle) := by
  induction l with
  | nil => simp [Complex.arg_one]
  | cons z t ih =>
    have hz := hl z (List.mem_cons_self z t)
    have ht : ∀ w ∈ t, w ≠ 0 := fun w hw => hl w (List.mem_cons_of_mem z hw)
    have hpt : t.prod ≠ 0 := List.prod_ne_zero (fun h0 => ht 0 h0 rfl)
    rw [List.map_cons, List.sum_cons, List.prod_cons, Real.Angle.coe_add,
      ih ht, Complex.arg_mul_coe_angle hz hpt]

theorem det_list_prod {n : ℕ} (l : List (Matrix (Fin n) (Fin n) ℂ)) :
    l.prod.det = (l.map Matrix.det).prod := by
  induction l with
  | nil => simp
  | cons M t ih =>
    rw [List.prod_cons, Matrix.det_mul, ih, List.map_cons, List.prod_cons]

/-- Claim C5: for every closed loop of overlap matrices and every subspace
size `n` between 1 and the largest common overlap dimension, the `n`-th
entry of the array returned by `BandStructure.zakphase` is the per-overlap
angles of the determinants of the leading `n×n` blocks, summed modulo
`2π` — equivalently (all block determinants nonzero) it equals, modulo
`2π`, the angle of the determinant of the product of the leading `n×n`
blocks of the consecutive overlaps around the loop. -/
theorem C5_zakphase (overlaps : List OvMat) (n : ℕ) (h1 : 1 ≤ n)
    (h2 : n ≤ nmaxOv overlaps)
    (hdet : ∀ O ∈ overlaps, (lead n O).det ≠ 0) :
    (zakphase_z overlaps)[n - 1]? = some (zakZ overlaps n) ∧
    ((zakZ overlaps n : ℝ) : Real.Angle) =
      (Complex.arg ((overlaps.map (lead n)).prod).det : Real.Angle) ∧
    0 ≤ zakZ overlaps n ∧ zakZ overlaps n < 2 * Real.pi := by
  refine ⟨?_, ?_, ?_, ?_⟩
  · unfold zakphase_z
    rw [List.getElem?_map, List.getElem?_range (by omega : n - 1 < nmaxOv overlaps)]
    show Option.map (fun i => zakZ overlaps (i + 1)) (some (n - 1)) =
      some (zakZ overlaps n)
    show some (zakZ overlaps (n - 1 + 1)) = some (zakZ overlaps n)
    rw [show n - 1 + 1 = n from by omega]
  · unfold zakZ
    rw [pymodR_coe_angle]
    have hmm : (overlaps.map (fun O => Complex.arg (lead n O).det)) =
        ((overlaps.map (lead n)).map Matrix.det).map Complex.arg := by
      rw [List.map_map, List.map_map]
      rfl
    rw [hmm, arg_list_sum_coe_angle _ ?hnz, det_list_prod]
    case hnz =>
      intro z hz
      rw [List.map_map] at hz
      obtain ⟨O, hO, hzO⟩ := List.mem_map.1 hz
      rw [← hzO]
      exact hdet O hO
  · exact (pymodR_bounds _ _ Real.two_pi_pos).1
  · exact (pymodR_bounds _ _ Real.two_pi_pos).2

/-- Witness for C5: the single-overlap loop with overlap `[[1]]` at
subspace size 1 — the Zak phase entry is defined, equals (mod `2π`) the
angle of the determinant of the product of the 1×1 leading blocks, and
lies in `[0, 2π)`. -/
theorem C5_zakphase_witness :
    (zakphase_z [o11])[0]? = some (zakZ [o11] 1) ∧
    ((zakZ [o11] 1 : ℝ) : Real.Angle) =
      (Complex.arg (([o11].map (lead 1)).prod).det : Real.Angle) ∧
    0 ≤ zakZ [o11] 1 ∧ zakZ [o11] 1 < 2 * Real.pi :=
  C5_zakphase [o11] 1 (le_refl 1) (le_refl 1)
    (by
      intro O hO
      rw [List.mem_singleton] at hO
      subst hO
      rw [Matrix.det_fin_one]
      show (1 : ℂ) ≠ 0
      exact one_ne_zero)

theorem angle_eig_pair_cases (w : List ℂ) (v : List (List ℂ)) :
    (w = [] ∧ v = []) ∨ angle_eig_pair w v = .error .raggedArray := by
  match w, v with
  | [], [] => exact Or.inl ⟨rfl, rfl⟩
  | [], x :: t => exact Or.inr rfl
  | x :: t, [] => exact Or.inr rfl
  | x :: t, y :: s => exact Or.inr rfl

theorem wcc_finish_raises (eig : List (List ℂ) → List ℂ × List (List ℂ))
    (wilson : List (List ℂ))
    (h : angle_eig_pair (eig wilson).1 (eig wilson).2 =
      .error .raggedArray) :
    wcc_finish eig wilson = .error .raggedArray := by
  unfold wcc_finish
  rw [h]

/-- On any loop, `wcc` raises as soon as `np.linalg.eig` returns a
non-degenerate (non-empty) eigensystem for the Wilson matrix, since
`np.angle` cannot coerce the `(eigenvalues, eigenvectors)` pair. -/
theorem wcc_raises_on_nonempty_eig
    (svd : List (List ℂ) → List (List ℂ) × List ℝ × List (List ℂ))
    (eig : List (List ℂ) → List ℂ × List (List ℂ))
    (overlaps : List (List (List ℂ)))
    (heig : ∀ M, (eig M).1 ≠ [] ∨ (eig M).2 ≠ []) :
    ∃ e, wcc svd eig overlaps = .error e := by
  match overlaps with
  | [] => exact ⟨.reduceEmpty, rfl⟩
  | O :: os =>
    refine ⟨.raggedArray, ?_⟩
    show wcc_finish eig _ = _
    apply wcc_finish_raises
    rcases angle_eig_pair_cases (eig _).1 (eig _).2 with ⟨hw, hv⟩ | herr
    · rcases heig ((os.map (fun O => matmulL (svd O).1 (svd O).2.2)).foldl
        matmulL (matmulL (svd O).1 (svd O).2.2)) with h | h
      · exact absurd hw h
      · exact absurd hv h
    · exact herr

/-- Claim C4 counterexample: `BandStructure.wcc` does not return the
claimed sorted eigenvalue phases — `np.angle(np.linalg.eig(wilson))`
passes the whole `(eigenvalues, eigenvectors)` pair to `np.angle`, which
cannot coerce the ragged pair to a numeric array, so the call raises on
the single-k-point loop with self-overlap `[[1]]` (and on every loop with
a nonempty Wilson matrix, cf. `wcc_raises_on_nonempty_eig`). -/
theorem C4_wcc_raises :
    wcc svdOne eigOne [[[1]]] = .error .raggedArray := rfl

end Irrep
